import Mathlib

/-!
Verification development for the mcpnest-cli protocol client (`index.js`).

The JavaScript source is shallowly embedded: JS strings become `String` or
`List Char`, JS objects relevant to the claims become inductive types or
structures, `String.replace` with a global literal pattern becomes
`replaceAll`, and the event-driven network code becomes explicit state
passing over a `ClientState` record with the environment's responses
supplied as parameters.
-/

namespace MCPNest

/-- Substring occurrence on character lists. -/
def containsList (pat : List Char) : List Char → Bool
  | [] => pat.isEmpty
  | c :: rest => pat.isPrefixOf (c :: rest) || containsList pat rest

/-- JS `String.prototype.includes`. -/
def strContains (s pat : String) : Bool :=
  containsList pat.toList s.toList

/-- Worker for `replaceAll`: while the first argument is positive, skip that
many characters (the remainder of a replaced occurrence); at zero, scan for
the pattern `p :: ps`. -/
def replaceAllAux (p : Char) (ps rep : List Char) : Nat → List Char → List Char
  | 0, [] => []
  | 0, c :: rest =>
    if (p :: ps).isPrefixOf (c :: rest) then
      rep ++ replaceAllAux p ps rep ps.length rest
    else
      c :: replaceAllAux p ps rep 0 rest
  | _ + 1, [] => []
  | n + 1, _ :: rest => replaceAllAux p ps rep n rest

/-- JS `String.prototype.replace` with a global (`/g`) literal pattern
`p :: ps` (all patterns in the source are non-empty literals): scan left to
right, replace each non-overlapping occurrence by `rep`, never re-scanning
the replacement text. -/
def replaceAll (p : Char) (ps rep s : List Char) : List Char :=
  replaceAllAux p ps rep 0 s

/-- The entity-decoding chain from `extractConfigFromRender`: the five
fixed HTML entities are replaced in source order, `&amp;` last. -/
def decodeEntities (s : List Char) : List Char :=
  replaceAll '&' ['a', 'm', 'p', ';'] ['&']
    (replaceAll '&' ['g', 't', ';'] ['>']
      (replaceAll '&' ['l', 't', ';'] ['<']
        (replaceAll '&' ['#', '3', '9', ';'] ['\x27']
          (replaceAll '&' ['q', 'u', 'o', 't', ';'] ['"'] s))))

/-- String-valued wrapper for `decodeEntities`. -/
def decodeStr (s : String) : String :=
  (decodeEntities s.toList).asString

/-! ### HTML-entity encoding (the specification side of the round trip) -/

/-- Concatenate per-character blocks. -/
def encWith (f : Char → List Char) : List Char → List Char
  | [] => []
  | c :: rest => f c ++ encWith f rest

/-- Standard HTML encoding of the five special characters. -/
def encodeChar (c : Char) : List Char :=
  if c = '"' then ['&', 'q', 'u', 'o', 't', ';']
  else if c = '\x27' then ['&', '#', '3', '9', ';']
  else if c = '<' then ['&', 'l', 't', ';']
  else if c = '>' then ['&', 'g', 't', ';']
  else if c = '&' then ['&', 'a', 'm', 'p', ';']
  else [c]

/-- Encoding with the quote entity already decoded. -/
def encodeChar1 (c : Char) : List Char :=
  if c = '"' then ['"']
  else if c = '\x27' then ['&', '#', '3', '9', ';']
  else if c = '<' then ['&', 'l', 't', ';']
  else if c = '>' then ['&', 'g', 't', ';']
  else if c = '&' then ['&', 'a', 'm', 'p', ';']
  else [c]

/-- Encoding with quote and apostrophe decoded. -/
def encodeChar2 (c : Char) : List Char :=
  if c = '<' then ['&', 'l', 't', ';']
  else if c = '>' then ['&', 'g', 't', ';']
  else if c = '&' then ['&', 'a', 'm', 'p', ';']
  else [c]

/-- Encoding with quote, apostrophe and less-than decoded. -/
def encodeChar3 (c : Char) : List Char :=
  if c = '>' then ['&', 'g', 't', ';']
  else if c = '&' then ['&', 'a', 'm', 'p', ';']
  else [c]

/-- Encoding with only the ampersand still encoded. -/
def encodeChar4 (c : Char) : List Char :=
  if c = '&' then ['&', 'a', 'm', 'p', ';']
  else [c]

/-- HTML-encode a list of characters. -/
def htmlEncode (s : List Char) : List Char :=
  encWith encodeChar s

/-! ### Render trees (`extractConfigFromRender`, `findConfig`) -/

mutual

/-- A LiveView render tree: string leaves or objects with string keys
(the shape the spec's RenderTree describes). -/
inductive RTree where
  | str : String → RTree
  | node : RFields → RTree

/-- The ordered fields of a render-tree object (JS `for ... in` order). -/
inductive RFields where
  | nil : RFields
  | cons : String → RTree → RFields → RFields

end

/-- JS truthiness of a render-tree value: objects are truthy, strings are
truthy iff non-empty. -/
def truthy : RTree → Bool
  | .str s => !(s == "")
  | .node _ => true

/-- First field with the given key. -/
def getField : RFields → String → Option RTree
  | .nil, _ => none
  | .cons k v rest, key => if k == key then some v else getField rest key

/-- JS member access `t[key]` on a render-tree value. Indexing a JS string
by a numeric key yields a one-character string; that quirk is not modelled
(`none` here): a single character can never contain the `mcpServers`
marker, and on every path the claims exercise the indexed value is an
object. -/
def rget : RTree → String → Option RTree
  | .str _, _ => none
  | .node fs, key => getField fs key

mutual

/-- The fallback depth-limited search of `extractConfigFromRender`
(`function findConfig(obj, depth = 0)`): give up beyond depth 10, return a
string leaf containing `mcpServers`, otherwise recurse into object fields
in order. -/
def findConfig : RTree → Nat → Option String
  | t, depth =>
    if depth > 10 then none
    else
      match t with
      | .str s => if strContains s "mcpServers" then some s else none
      | .node fs => findConfigFields fs depth

/-- Field loop of `findConfig`: `if (result) return result` — a falsy
(empty-string) result does not stop the loop. -/
def findConfigFields : RFields → Nat → Option String
  | .nil, _ => none
  | .cons _ v rest, depth =>
    match findConfig v (depth + 1) with
    | some s => if s == "" then findConfigFields rest depth else some s
    | none => findConfigFields rest depth

end

mutual

/-- Specification-side instrument: the marker-containing string leaves of a
tree together with the depth at which `findConfig` would visit them when
started at depth `depth`. -/
def leaves : RTree → Nat → List (Nat × String)
  | .str s, depth => if strContains s "mcpServers" then [(depth, s)] else []
  | .node fs, depth => leavesFields fs depth

/-- Field part of `leaves`. -/
def leavesFields : RFields → Nat → List (Nat × String)
  | .nil, _ => []
  | .cons _ v rest, depth => leaves v (depth + 1) ++ leavesFields rest depth

end

/-- A linear tree placing the given string at exactly the given depth. -/
def chainTree : Nat → String → RTree
  | 0, s => .str s
  | n + 1, s => .node (.cons "k" (chainTree n s) .nil)

/-- `extractConfigFromRender(response)`: the two fixed coordinate lookups
(`rendered["0"]["8"]["3"]`, then `rendered["0"]["1"]["3"]["0"]`), then the
bounded search, each candidate decoded through the five-entity chain. -/
def extractConfigFromRender (response : RTree) : Option String :=
  match rget response "rendered" with
  | none => none
  | some rendered =>
    if truthy rendered then
      match rget rendered "0" with
      | none => none
      | some renderTree =>
        if truthy renderTree then
          let first :=
            match rget renderTree "8" with
            | none => none
            | some n8 =>
              if truthy n8 then
                match rget n8 "3" with
                | none => none
                | some v =>
                  if truthy v then
                    match v with
                    | .str s => if strContains s "\x7b" then some (decodeStr s) else none
                    | .node _ => none
                  else none
              else none
          match first with
          | some r => some r
          | none =>
            let second :=
              match rget renderTree "1" with
              | none => none
              | some n1 =>
                if truthy n1 then
                  match rget n1 "3" with
                  | none => none
                  | some v3 =>
                    if truthy v3 then
                      match rget v3 "0" with
                      | none => none
                      | some v0 =>
                        match v0 with
                        | .str s => if strContains s "\x7b" then some (decodeStr s) else none
                        | .node _ => none
                    else none
                else none
            match second with
            | some r => some r
            | none =>
              match findConfig renderTree 0 with
              | some s => some (decodeStr s)
              | none => none
        else none
    else none

/-! ### Environment-variable expansion (`expandEnvVar`) -/

/-- JS falsiness of `process.env[name]`: `undefined` or the empty string. -/
def jsFalsyOpt : Option String → Bool
  | none => true
  | some s => s == ""

/-- JS `envValue || d`: the env value if truthy, otherwise `d`. -/
def jsOrOpt (o : Option String) (d : String) : String :=
  match o with
  | some s => if s == "" then d else s
  | none => d

/-- Does the expression contain the `:-` separator (JS `expr.includes(':-')`)? -/
def hasCD : List Char → Bool
  | [] => false
  | [_] => false
  | a :: b :: rest => (a == ':' && b == '-') || hasCD (b :: rest)

/-- JS `expr.split(':-')`. -/
def splitCD : List Char → List (List Char)
  | [] => [[]]
  | [c] => [[c]]
  | a :: b :: rest =>
    if a == ':' && b == '-' then [] :: splitCD rest
    else
      match splitCD (b :: rest) with
      | [] => [[a]]
      | h :: t => (a :: h) :: t

/-- Diagnostic of the `:-` branch: emitted when both the environment value
and the default are falsy. -/
def expandWarnWithDefault (envValue : Option String) (varName defaultValue : String) : List String :=
  if jsFalsyOpt envValue && defaultValue == "" then
    ["Warning: Environment variable \x27" ++ varName ++ "\x27 is undefined and no default provided"]
  else []

/-- Diagnostic of the plain branch: emitted when the environment value is
falsy. -/
def expandWarnPlain (envValue : Option String) (varName : String) : List String :=
  if jsFalsyOpt envValue then
    ["Warning: Environment variable \x27" ++ varName ++ "\x27 is undefined"]
  else []

/-- The replacer callback of `expandEnvVar` applied to a captured
placeholder expression; returns the replacement text and the diagnostics
written to the error stream (`defaultValue || ''` collapses to
`defaultValue` and is written as such). Environment access is the injected
`env` lookup standing for `process.env`. -/
def expandReplacer (env : String → Option String) (expr : List Char) : String × List String :=
  if hasCD expr then
    let varName := ((splitCD expr).headD []).asString
    let defaultValue := (((splitCD expr).drop 1).headD []).asString
    (jsOrOpt (env varName) defaultValue, expandWarnWithDefault (env varName) varName defaultValue)
  else
    let varName := expr.asString
    (jsOrOpt (env varName) "", expandWarnPlain (env varName) varName)

mutual

/-- Scanner for the global regex `\$\{([^\x7d]+)\}` of `expandEnvVar`,
outside any candidate match: ordinary characters are copied, `$` may start
a match. `em` is the replacer callback. -/
def scanA (em : List Char → String × List String) : List Char → List Char × List String
  | [] => ([], [])
  | c :: rest =>
    if c = '$' then scanDollar em rest
    else
      let r := scanA em rest
      (c :: r.1, r.2)
  termination_by s => 2 * s.length
  decreasing_by
    all_goals simp only [List.length_cons]
    all_goals omega

/-- After a `$`: a `{` opens a candidate placeholder; anything else means
the regex engine moves one position past the `$` and rescans. -/
def scanDollar (em : List Char → String × List String) : List Char → List Char × List String
  | [] => (['$'], [])
  | c :: rest =>
    if c = '\x7b' then scanBrace em [] rest
    else
      let r := scanA em (c :: rest)
      ('$' :: r.1, r.2)
  termination_by s => 2 * s.length + 1
  decreasing_by
    all_goals simp only [List.length_cons]
    all_goals omega

/-- Inside `${...`: collect content characters up to `}`. An empty content
(`[^\x7d]+` needs at least one character) or a missing `}` (no later match
can complete without one) fails the candidate and the original text is
kept. -/
def scanBrace (em : List Char → String × List String) (acc : List Char) :
    List Char → List Char × List String
  | [] => ('$' :: '\x7b' :: acc, [])
  | c :: rest =>
    if c = '\x7d' then
      if acc.isEmpty then
        let r := scanA em rest
        ('$' :: '\x7b' :: '\x7d' :: r.1, r.2)
      else
        let m := em acc
        let r := scanA em rest
        (m.1.toList ++ r.1, m.2 ++ r.2)
    else scanBrace em (acc ++ [c]) rest
  termination_by s => 2 * s.length + 1
  decreasing_by
    all_goals simp only [List.length_cons]
    all_goals omega

end

/-- `expandEnvVar(value)`: the expanded string and the diagnostics emitted. -/
def expandEnvVar (env : String → Option String) (value : String) : String × List String :=
  let r := scanA (expandReplacer env) value.toList
  (r.1.asString, r.2)

/-! ### Configuration validation and conversion (`formatConfig`) -/

/-- A `transport` sub-object; only its `type` field is inspected. -/
structure TransportCfg where
  type : Option String := none
deriving DecidableEq

/-- One server entry of the input configuration. Optional fields model
presence; `headers` models presence paired with JS truthiness of the value;
`extraFields` holds the names of any further fields (only their names
matter: they are stripped with a warning). Environment values are modelled
as strings (the only case the claims exercise; non-string values are copied
verbatim by the source). -/
structure ServerConfig where
  type : Option String := none
  url : Option String := none
  headers : Option Bool := none
  command : Option String := none
  args : Option (List String) := none
  transport : Option TransportCfg := none
  env : Option (List (String × String)) := none
  extraFields : List String := []

/-- An accepted entry rewritten to the restricted schema. -/
structure ConvertedServer where
  command : String
  args : Option (List String)
  transport : TransportCfg
  env : List (String × String)
deriving DecidableEq

/-- A rejected entry with its reason and suggestion. -/
structure InvalidEntry where
  name : String
  reason : String
  suggestion : String
deriving DecidableEq

/-- The result record of `formatConfig`. -/
structure FormatResult where
  valid : List (String × ConvertedServer)
  invalid : List InvalidEntry
  warnings : List String

/-- The parsed input configuration: its `mcpServers` member, if present. -/
structure MCPConfig where
  mcpServers : Option (List (String × ServerConfig)) := none

/-- JS truthiness of an optional string field. -/
def truthyStrOpt : Option String → Bool
  | none => false
  | some s => !(s == "")

/-- JS truthiness of the modelled `headers` field. -/
def truthyBoolOpt : Option Bool → Bool
  | none => false
  | some b => b

/-- One iteration of the `formatConfig` entry loop. -/
def processEntry (envMap : String → Option String) (acc : FormatResult)
    (entry : String × ServerConfig) : FormatResult :=
  let serverName := entry.1
  let sc := entry.2
  if sc.type == some "http" || sc.type == some "sse" then
    let e : InvalidEntry :=
      { name := serverName,
        reason := (sc.type.getD "").toUpper ++ " transport not supported by MCPNest",
        suggestion := "Use stdio-based alternative or deploy server separately" }
    { acc with invalid := acc.invalid ++ [e] }
  else if truthyStrOpt sc.url || truthyBoolOpt sc.headers then
    let e : InvalidEntry :=
      { name := serverName,
        reason := "HTTP/SSE fields detected (url/headers)",
        suggestion := "MCPNest only supports stdio transport" }
    { acc with invalid := acc.invalid ++ [e] }
  else if !truthyStrOpt sc.command then
    let e : InvalidEntry :=
      { name := serverName,
        reason := "Missing required field: command",
        suggestion := "Add command field with value \"npx\" or \"uvx\"" }
    { acc with invalid := acc.invalid ++ [e] }
  else
    let cmd := sc.command.getD ""
    if !((["npx", "uvx"] : List String).contains cmd) then
      let isPath := strContains cmd "/" || strContains cmd "\\"
      let suggestion :=
        if isPath then "Package as npm/PyPI package and use \"npx\" or \"uvx\" command"
        else "Use \"npx\" or \"uvx\" instead of \"" ++ cmd ++ "\""
      let e : InvalidEntry :=
        { name := serverName,
          reason := "Command \x27" ++ cmd ++ "\x27 not allowed",
          suggestion := suggestion }
      { acc with invalid := acc.invalid ++ [e] }
    else
      let converted : ConvertedServer := {
        command := cmd
        args := sc.args
        transport :=
          match sc.transport with
          | none => { type := some "stdio" }
          | some tr => if truthyStrOpt tr.type then tr else { type := some "stdio" }
        env := (sc.env.getD []).map (fun kv => (kv.1, (expandEnvVar envMap kv.2).1)) }
      let invalidFields := (if sc.url.isSome then ["url"] else []) ++
        (if sc.headers.isSome then ["headers"] else []) ++ sc.extraFields
      let warnings :=
        if invalidFields.length > 0 then
          acc.warnings ++ ["Server \x27" ++ serverName ++ "\x27: Removed invalid fields: " ++
            String.intercalate ", " invalidFields]
        else acc.warnings
      { acc with valid := acc.valid ++ [(serverName, converted)], warnings := warnings }

/-- `formatConfig(config)`: a missing root or missing `mcpServers` yields
only a warning; otherwise entries are processed in order. -/
def formatConfig (envMap : String → Option String) (config : Option MCPConfig) : FormatResult :=
  match config with
  | none => { valid := [], invalid := [], warnings := ["Configuration must contain mcpServers object"] }
  | some cfg =>
    match cfg.mcpServers with
    | none => { valid := [], invalid := [], warnings := ["Configuration must contain mcpServers object"] }
    | some entries => entries.foldl (processEntry envMap) { valid := [], invalid := [], warnings := [] }

/-! ### Session state, token scraping (`fetchPageTokens`) and `connect` -/

/-- The mutable fields of `MCPNestClient` relevant to the claims
(constructor lines: counters at 0, everything else null). -/
structure ClientState where
  msgRef : Nat := 0
  joinRef : Option Nat := none
  phxId : Option String := none
  csrfToken : Option String := none
  session : Option String := none
  static : Option String := none

/-- An HTTP response delivered to `fetchPageTokens`. -/
structure HttpResponse where
  statusCode : Nat
  body : List Char

/-- Leftmost-match scanner: try the pattern at every position, left to
right. -/
def scanAt (tryp : List Char → Option (List Char)) : List Char → Option (List Char)
  | [] => tryp []
  | c :: rest =>
    match tryp (c :: rest) with
    | some r => some r
    | none => scanAt tryp rest

/-- Characters before the first `"` and the remainder after it. -/
def takeUntilQuote : List Char → Option (List Char × List Char)
  | [] => none
  | c :: rest =>
    if c = '"' then some ([], rest)
    else
      match takeUntilQuote rest with
      | none => none
      | some (content, rem) => some (c :: content, rem)

/-- Match `lit` followed by a non-empty `[^"]+` capture and a closing `"`
at the start of `s` (the shape of the three `data-phx-*` regexes). -/
def tryAttrAt (lit : List Char) (s : List Char) : Option (List Char) :=
  if lit.isPrefixOf s then
    match takeUntilQuote (s.drop lit.length) with
    | some (content, _) => if content.isEmpty then none else some content
    | none => none
  else none

/-- First match of an attribute regex over the page body. -/
def extractAttr (lit : List Char) (body : List Char) : Option String :=
  (scanAt (tryAttrAt lit) body).map List.asString

/-- The characters matched by the JS `\s` class (ASCII part). -/
def jsWhitespace (c : Char) : Bool :=
  c == ' ' || c == '\t' || c == '\n' || c == '\r' || c == '\x0c' || c == '\x0b'

/-- Match `name="csrf-token"\s+content="([^"]+)"` at the start of `s`. -/
def tryCsrfAt (s : List Char) : Option (List Char) :=
  let lit1 := "name=\"csrf-token\"".toList
  if lit1.isPrefixOf s then
    let s1 := s.drop lit1.length
    if (s1.takeWhile jsWhitespace).isEmpty then none
    else
      let s2 := s1.dropWhile jsWhitespace
      let lit2 := "content=\"".toList
      if lit2.isPrefixOf s2 then
        match takeUntilQuote (s2.drop lit2.length) with
        | some (content, _) => if content.isEmpty then none else some content
        | none => none
      else none
  else none

/-- CSRF token extraction. -/
def extractCsrf (body : List Char) : Option String :=
  (scanAt tryCsrfAt body).map List.asString

/-- Session token extraction (`data-phx-session="([^"]+)"`). -/
def extractSession (body : List Char) : Option String :=
  extractAttr "data-phx-session=\"".toList body

/-- Static token extraction (`data-phx-static="([^"]+)"`). -/
def extractStatic (body : List Char) : Option String :=
  extractAttr "data-phx-static=\"".toList body

/-- Does the id content match `[^"]*phx-[^"]+`: an occurrence of `phx-`
with at least one character after it? -/
def hasPhxMid : List Char → Bool
  | [] => false
  | c :: rest =>
    ("phx-".toList.isPrefixOf (c :: rest) && decide (rest.length ≥ 4)) || hasPhxMid rest

/-- Match `id="([^"]*phx-[^"]+)"` at the start of `s`. -/
def tryPhxIdAt (s : List Char) : Option (List Char) :=
  let lit := "id=\"".toList
  if lit.isPrefixOf s then
    match takeUntilQuote (s.drop lit.length) with
    | some (content, _) => if hasPhxMid content then some content else none
    | none => none
  else none

/-- Element-id extraction. -/
def extractPhxId (body : List Char) : Option String :=
  (scanAt tryPhxIdAt body).map List.asString

/-- Apply the four independent extractions of `fetchPageTokens` to the
page body: each field is assigned only when its pattern matches. (The
source also matches `data-phx-main` but never stores it.) -/
def fetchApply (st : ClientState) (body : List Char) : ClientState :=
  let st1 := match extractCsrf body with
    | some t => { st with csrfToken := some t }
    | none => st
  let st2 := match extractSession body with
    | some t => { st1 with session := some t }
    | none => st1
  let st3 := match extractStatic body with
    | some t => { st2 with static := some t }
    | none => st2
  match extractPhxId body with
  | some t => { st3 with phxId := some t }
  | none => st3

/-- The non-debug diagnostic written during a fetch: only 301 and 302
trigger the redirect warning. -/
def fetchDiags (r : HttpResponse) : List String :=
  if r.statusCode == 302 || r.statusCode == 301 then
    ["Redirect detected - authentication may have expired"]
  else []

/-- What the HTTP layer did for the token fetch. -/
inductive FetchOutcome where
  | transportError : FetchOutcome
  | got : HttpResponse → FetchOutcome

/-- `fetchPageTokens()`: rejects only on a transport error; any received
response resolves after applying the extractions. -/
def fetchPageTokens (st : ClientState) (o : FetchOutcome) :
    Except Unit (ClientState × List String) :=
  match o with
  | .transportError => .error ()
  | .got r => .ok (fetchApply st r.body, fetchDiags r)

/-- Result of `connect()` up to the point where a websocket would be
opened: `wsAttempt` is the only constructor representing a transport
connection attempt. -/
inductive ConnectResult where
  | netError : ConnectResult
  | authError : ConnectResult
  | wsAttempt : ClientState → ConnectResult

/-- `connect()`: fetch tokens when no CSRF token is cached; abort before
any websocket work when the CSRF token is still missing. -/
def connect (st : ClientState) (o : FetchOutcome) : ConnectResult :=
  if st.csrfToken.isSome then .wsAttempt st
  else
    match fetchPageTokens st o with
    | .error _ => .netError
    | .ok (st', _) =>
      if st'.csrfToken.isSome then .wsAttempt st' else .authError

/-! ### Outbound frames, reply handlers, send operations -/

/-- Payload discriminator for outbound frames (payload contents are not
needed by the claims). -/
inductive FramePayload where
  | heartbeatPayload : FramePayload
  | joinPayload : FramePayload
  | savePayload : FramePayload

/-- An outbound 5-tuple frame. References are kept as the numeric counter
values; serialization stringifies them (`String(this.msgRef++)`). -/
structure OutFrame where
  joinRef : Option Nat
  msgRef : Option Nat
  topic : String
  event : String
  payload : FramePayload

/-- One heartbeat tick: `[null, String(msgRef++), "phoenix", "heartbeat", {}]`. -/
def heartbeatSend (st : ClientState) : OutFrame × ClientState :=
  (⟨none, some st.msgRef, "phoenix", "heartbeat", .heartbeatPayload⟩,
   { st with msgRef := st.msgRef + 1 })

/-- Result of the send phase of `joinLiveView`. -/
inductive JoinSendResult where
  | noPhxId : JoinSendResult
  | sent : OutFrame → ClientState → JoinSendResult

/-- The send phase of `joinLiveView()`: reject without a page element id;
otherwise assign `joinRef = String(msgRef++)` and build the join frame with
a second fresh reference. -/
def joinSend (st : ClientState) : JoinSendResult :=
  match st.phxId with
  | none => .noPhxId
  | some pid =>
    let topic := "lv:" ++ pid
    let jr := st.msgRef
    let stJ := { st with joinRef := some jr, msgRef := st.msgRef + 1 }
    let mr := stJ.msgRef
    let stM := { stJ with msgRef := stJ.msgRef + 1 }
    .sent ⟨some jr, some mr, topic, "phx_join", .joinPayload⟩ stM

/-- The save-message send of `writeConfig`: `[joinRef, String(msgRef++),
topic, "event", {...}]` (a null `phxId` renders as the string `null`). -/
def saveSend (st : ClientState) : OutFrame × ClientState :=
  (⟨st.joinRef, some st.msgRef,
    "lv:" ++ (match st.phxId with | some p => p | none => "null"),
    "event", .savePayload⟩,
   { st with msgRef := st.msgRef + 1 })

/-- An inbound frame as seen by the reply handlers (`msg[1]` is the wire
message reference, `msg[4].status` the optional reply status). -/
structure InboundMsg where
  joinRef : Option String := none
  msgRef : Option String := none
  topic : String
  event : String
  status : Option String := none

/-- What a reply handler does with an inbound frame. -/
inductive HandlerAction where
  | resolveOk : HandlerAction
  | rejectErr : HandlerAction
  | ignore : HandlerAction
deriving DecidableEq

/-- The `joinLiveView` message handler: matches on topic and `phx_reply`
event only, then branches on the reply status (unknown statuses are
ignored). -/
def joinHandlerAction (topic : String) (msg : InboundMsg) : HandlerAction :=
  if msg.topic == topic && msg.event == "phx_reply" then
    if msg.status == some "ok" then .resolveOk
    else if msg.status == some "error" then .rejectErr
    else .ignore
  else .ignore

/-- The `writeConfig` save handler: matches on topic and `phx_reply` event
only; any non-ok status rejects. -/
def saveHandlerAction (topic : String) (msg : InboundMsg) : HandlerAction :=
  if msg.topic == topic && msg.event == "phx_reply" then
    if msg.status == some "ok" then .resolveOk else .rejectErr
  else .ignore

/-- The three kinds of send operation a session performs. -/
inductive SendOp where
  | heartbeat : SendOp
  | join : SendOp
  | submitEvent : SendOp

/-- The outbound frames a single operation emits, with the state update. -/
def opFrames : SendOp → ClientState → List OutFrame × ClientState
  | .heartbeat, st =>
    let r := heartbeatSend st
    ([r.1], r.2)
  | .join, st =>
    match joinSend st with
    | .noPhxId => ([], st)
    | .sent f st' => ([f], st')
  | .submitEvent, st =>
    let r := saveSend st
    ([r.1], r.2)

/-- Run a sequence of send operations, collecting all outbound frames. -/
def runOps : List SendOp → ClientState → List OutFrame × ClientState
  | [], st => ([], st)
  | op :: ops, st =>
    let r := opFrames op st
    let rs := runOps ops r.2
    (r.1 ++ rs.1, rs.2)

/-! ### The write command's exit-code path -/

/-- Outcome of a correlated call as seen by `writeConfig`. -/
inductive ReplyOutcome where
  | okReply : ReplyOutcome
  | errReply : ReplyOutcome
  | timeoutReply : ReplyOutcome
deriving DecidableEq

/-- Observable outcome of one `write` invocation. -/
structure WriteRun where
  exitCode : Nat
  joinAttempted : Bool
deriving DecidableEq

/-- The `write` command pipeline after argument resolution: `connect()`,
then `writeConfig` (validate, early-exit 2 with no join when nothing is
valid, join, save), with every thrown error caught by the CLI action as
exit 3. `join`/`save` are the environment's reply outcomes for the two
correlated calls. -/
def writeCommandRun (envMap : String → Option String) (connectOk : Bool)
    (config : Option MCPConfig) (join save : ReplyOutcome) : WriteRun :=
  if !connectOk then ⟨3, false⟩
  else
    let fmt := formatConfig envMap config
    if fmt.valid.length == 0 then ⟨2, false⟩
    else
      match join with
      | .okReply =>
        match save with
        | .okReply => ⟨if fmt.invalid.length > 0 then 1 else 0, true⟩
        | _ => ⟨3, true⟩
      | _ => ⟨3, true⟩

/-! ### Concrete sample inputs used by witnesses and counterexamples -/

/-- The join-reply payload fixed by the spec:
`\x7brendered:\x7b"0":\x7b"8":\x7b"3":"\x7b&quot;mcpServers&quot;:\x7b\x7d\x7d"\x7d\x7d\x7d\x7d`. -/
def c4response : RTree :=
  RTree.node (RFields.cons "rendered"
    (RTree.node (RFields.cons "0"
      (RTree.node (RFields.cons "8"
        (RTree.node (RFields.cons "3"
          (RTree.str "\x7b&quot;mcpServers&quot;:\x7b\x7d\x7d") RFields.nil))
        RFields.nil))
      RFields.nil))
    RFields.nil)

/-- A freshly constructed client state (all tokens absent). -/
def stFresh : ClientState := {}

/-- A client state holding a scraped element id, ready to join. -/
def stJoinReady : ClientState := { phxId := some "phx-A" }

/-- An environment with no variables set. -/
def emptyEnvMap : String → Option String := fun _ => none

/-- A configuration whose single entry is accepted. -/
def cfgAllValid : Option MCPConfig :=
  some { mcpServers := some [("a", { command := some "npx" })] }

/-- A configuration with one accepted and one rejected entry. -/
def cfgSomeValid : Option MCPConfig :=
  some { mcpServers :=
           some [("a", { command := some "npx" }),
                 ("b", { command := some "python" })] }

/-- A configuration whose entries are all rejected. -/
def cfgNoneValid : Option MCPConfig :=
  some { mcpServers := some [("b", { command := some "python" })] }

/-- An environment where `HOME` is set to the empty string. -/
def envC10 : String → Option String := fun m => if m = "HOME" then some "" else none

/-! ### Basic `replaceAll` rewriting lemmas -/

theorem isPrefixOf_append_self (l m : List Char) : (l.isPrefixOf (l ++ m)) = true := by
  induction l with
  | nil => simp
  | cons a as ih => simp [List.isPrefixOf_cons₂, ih]

theorem replaceAllAux_skip (p : Char) (ps rep : List Char) :
    ∀ (l s : List Char), replaceAllAux p ps rep l.length (l ++ s) = replaceAll p ps rep s := by
  intro l
  induction l with
  | nil => intro s; rfl
  | cons a l' ih => intro s; simpa [replaceAllAux] using ih s

theorem replaceAll_nil (p : Char) (ps rep : List Char) : replaceAll p ps rep [] = [] := rfl

theorem replaceAll_hit (p : Char) (ps rep s : List Char) :
    replaceAll p ps rep (p :: (ps ++ s)) = rep ++ replaceAll p ps rep s := by
  show replaceAllAux p ps rep 0 (p :: (ps ++ s)) = _
  rw [replaceAllAux, if_pos]
  · rw [replaceAllAux_skip]
  · show ((p :: ps).isPrefixOf (p :: (ps ++ s))) = true
    exact isPrefixOf_append_self (p :: ps) s

theorem replaceAll_miss (p : Char) (ps rep : List Char) (c : Char) (s : List Char)
    (h : ((p :: ps).isPrefixOf (c :: s)) = false) :
    replaceAll p ps rep (c :: s) = c :: replaceAll p ps rep s := by
  show replaceAllAux p ps rep 0 (c :: s) = _
  rw [replaceAllAux, if_neg]
  · rfl
  · simp [h]

/-- Characters different from the pattern head are copied through unchanged. -/
theorem replaceAll_skip_no_p (p : Char) (ps rep : List Char) :
    ∀ (B rest : List Char), (∀ c ∈ B, c ≠ p) →
      replaceAll p ps rep (B ++ rest) = B ++ replaceAll p ps rep rest := by
  intro B
  induction B with
  | nil => intro rest _; rfl
  | cons b B' ih =>
    intro rest hB
    have hb : b ≠ p := hB b (by simp)
    rw [List.cons_append, replaceAll_miss]
    · rw [ih rest (fun c hc => hB c (by simp [hc])), List.cons_append]
    · rw [List.isPrefixOf_cons₂]
      have : (p == b) = false := by
        simp only [beq_eq_false_iff_ne]
        exact fun h => hb h.symm
      simp [this]

/-- Generic stage lemma: one `replaceAll` pass over a block-encoded string
turns block map `f` into block map `g`, provided every block either is
exactly the pattern (and `g` gives the replacement), contains no pattern
head at all, or starts with the pattern head but mismatches the pattern
regardless of what follows. -/
theorem replaceAll_encWith (p : Char) (ps rep : List Char) (f g : Char → List Char)
    (h : ∀ c, (f c = p :: ps ∧ g c = rep) ∨
      ((∀ d ∈ f c, d ≠ p) ∧ g c = f c) ∨
      (∃ B, f c = p :: B ∧ (∀ d ∈ B, d ≠ p) ∧
        (∀ r, ((p :: ps).isPrefixOf (p :: (B ++ r))) = false) ∧ g c = f c)) :
    ∀ s, replaceAll p ps rep (encWith f s) = encWith g s := by
  intro s
  induction s with
  | nil => rfl
  | cons c t ih =>
    show replaceAll p ps rep (f c ++ encWith f t) = g c ++ encWith g t
    rcases h c with ⟨hf, hg⟩ | ⟨hf, hg⟩ | ⟨B, hf, hB, hmiss, hg⟩
    · rw [hf, hg, List.cons_append, replaceAll_hit, ih]
    · rw [replaceAll_skip_no_p _ _ _ _ _ hf, ih, hg]
    · rw [hf, hg, List.cons_append, replaceAll_miss _ _ _ _ _ (hmiss (encWith f t)),
        replaceAll_skip_no_p _ _ _ _ _ hB, ih, hf, List.cons_append]

theorem decode_stage1 (s : List Char) :
    replaceAll '&' ['q', 'u', 'o', 't', ';'] ['"'] (encWith encodeChar s)
      = encWith encodeChar1 s := by
  refine replaceAll_encWith _ _ _ _ _ (fun c => ?_) s
  by_cases h1 : c = '"'
  · exact Or.inl (by subst h1; exact ⟨rfl, rfl⟩)
  by_cases h2 : c = '\x27'
  · refine Or.inr (Or.inr ⟨['#', '3', '9', ';'], ?_, ?_, ?_, ?_⟩) <;>
      subst h2 <;> first
        | rfl
        | exact (by decide)
        | exact fun r => by simp [List.isPrefixOf_cons₂]
  by_cases h3 : c = '<'
  · refine Or.inr (Or.inr ⟨['l', 't', ';'], ?_, ?_, ?_, ?_⟩) <;>
      subst h3 <;> first
        | rfl
        | exact (by decide)
        | exact fun r => by simp [List.isPrefixOf_cons₂]
  by_cases h4 : c = '>'
  · refine Or.inr (Or.inr ⟨['g', 't', ';'], ?_, ?_, ?_, ?_⟩) <;>
      subst h4 <;> first
        | rfl
        | exact (by decide)
        | exact fun r => by simp [List.isPrefixOf_cons₂]
  by_cases h5 : c = '&'
  · refine Or.inr (Or.inr ⟨['a', 'm', 'p', ';'], ?_, ?_, ?_, ?_⟩) <;>
      subst h5 <;> first
        | rfl
        | exact (by decide)
        | exact fun r => by simp [List.isPrefixOf_cons₂]
  · refine Or.inr (Or.inl ⟨?_, ?_⟩) <;>
      simp_all [encodeChar, encodeChar1]

theorem decode_stage2 (s : List Char) :
    replaceAll '&' ['#', '3', '9', ';'] ['\x27'] (encWith encodeChar1 s)
      = encWith encodeChar2 s := by
  refine replaceAll_encWith _ _ _ _ _ (fun c => ?_) s
  by_cases h1 : c = '"'
  · exact Or.inr (Or.inl (by subst h1; exact ⟨by decide, rfl⟩))
  by_cases h2 : c = '\x27'
  · exact Or.inl (by subst h2; exact ⟨rfl, rfl⟩)
  by_cases h3 : c = '<'
  · refine Or.inr (Or.inr ⟨['l', 't', ';'], ?_, ?_, ?_, ?_⟩) <;>
      subst h3 <;> first
        | rfl
        | exact (by decide)
        | exact fun r => by simp [List.isPrefixOf_cons₂]
  by_cases h4 : c = '>'
  · refine Or.inr (Or.inr ⟨['g', 't', ';'], ?_, ?_, ?_, ?_⟩) <;>
      subst h4 <;> first
        | rfl
        | exact (by decide)
        | exact fun r => by simp [List.isPrefixOf_cons₂]
  by_cases h5 : c = '&'
  · refine Or.inr (Or.inr ⟨['a', 'm', 'p', ';'], ?_, ?_, ?_, ?_⟩) <;>
      subst h5 <;> first
        | rfl
        | exact (by decide)
        | exact fun r => by simp [List.isPrefixOf_cons₂]
  · refine Or.inr (Or.inl ⟨?_, ?_⟩) <;>
      simp_all [encodeChar1, encodeChar2]

theorem decode_stage3 (s : List Char) :
    replaceAll '&' ['l', 't', ';'] ['<'] (encWith encodeChar2 s)
      = encWith encodeChar3 s := by
  refine replaceAll_encWith _ _ _ _ _ (fun c => ?_) s
  by_cases h3 : c = '<'
  · exact Or.inl (by subst h3; exact ⟨rfl, rfl⟩)
  by_cases h4 : c = '>'
  · refine Or.inr (Or.inr ⟨['g', 't', ';'], ?_, ?_, ?_, ?_⟩) <;>
      subst h4 <;> first
        | rfl
        | exact (by decide)
        | exact fun r => by simp [List.isPrefixOf_cons₂]
  by_cases h5 : c = '&'
  · refine Or.inr (Or.inr ⟨['a', 'm', 'p', ';'], ?_, ?_, ?_, ?_⟩) <;>
      subst h5 <;> first
        | rfl
        | exact (by decide)
        | exact fun r => by simp [List.isPrefixOf_cons₂]
  · refine Or.inr (Or.inl ⟨?_, ?_⟩) <;>
      simp_all [encodeChar2, encodeChar3]

theorem decode_stage4 (s : List Char) :
    replaceAll '&' ['g', 't', ';'] ['>'] (encWith encodeChar3 s)
      = encWith encodeChar4 s := by
  refine replaceAll_encWith _ _ _ _ _ (fun c => ?_) s
  by_cases h4 : c = '>'
  · exact Or.inl (by subst h4; exact ⟨rfl, rfl⟩)
  by_cases h5 : c = '&'
  · refine Or.inr (Or.inr ⟨['a', 'm', 'p', ';'], ?_, ?_, ?_, ?_⟩) <;>
      subst h5 <;> first
        | rfl
        | exact (by decide)
        | exact fun r => by simp [List.isPrefixOf_cons₂]
  · refine Or.inr (Or.inl ⟨?_, ?_⟩) <;>
      simp_all [encodeChar3, encodeChar4]

theorem encWith_singleton (s : List Char) : encWith (fun c => [c]) s = s := by
  induction s with
  | nil => rfl
  | cons c t ih => simpa [encWith] using ih

theorem decode_stage5 (s : List Char) :
    replaceAll '&' ['a', 'm', 'p', ';'] ['&'] (encWith encodeChar4 s) = s := by
  have h : replaceAll '&' ['a', 'm', 'p', ';'] ['&'] (encWith encodeChar4 s)
      = encWith (fun c => [c]) s := by
    refine replaceAll_encWith _ _ _ _ _ (fun c => ?_) s
    by_cases h5 : c = '&'
    · exact Or.inl (by subst h5; exact ⟨rfl, rfl⟩)
    · refine Or.inr (Or.inl ⟨?_, ?_⟩) <;>
        simp_all [encodeChar4]
  rw [h, encWith_singleton]

/-! ### C3: entity encode/decode round trip -/

/-- C3: for any literal text, encoding the five special characters as
their HTML entities and then applying `extractConfigFromRender`'s decode
chain recovers the original text; in particular `&amp;lt;` decodes to
`&lt;`, never to a spurious `<`. -/
theorem entity_roundTrip :
    (∀ s : List Char, decodeEntities (htmlEncode s) = s) ∧
    decodeEntities "&amp;lt;".toList = "&lt;".toList := by
  constructor
  · intro s
    show decodeEntities (encWith encodeChar s) = s
    unfold decodeEntities
    rw [decode_stage1, decode_stage2, decode_stage3, decode_stage4, decode_stage5]
  · rfl

/-! ### C2: depth-limited fallback search -/

mutual

theorem leaves_depth_ge (t : RTree) (d : Nat) : ∀ p ∈ leaves t d, d ≤ p.1 := by
  match t with
  | .str s =>
    intro p hp
    simp only [leaves] at hp
    split at hp
    · simp at hp
      subst hp
      simp
    · simp at hp
  | .node fs =>
    intro p hp
    simp only [leaves] at hp
    exact leavesFields_depth_ge fs d p hp

theorem leavesFields_depth_ge (fs : RFields) (d : Nat) : ∀ p ∈ leavesFields fs d, d ≤ p.1 := by
  match fs with
  | .nil => simp [leavesFields]
  | .cons k v rest =>
    intro p hp
    simp only [leavesFields, List.mem_append] at hp
    rcases hp with h | h
    · have := leaves_depth_ge v (d + 1) p h
      omega
    · exact leavesFields_depth_ge rest d p h

end

mutual

theorem leaves_marker (t : RTree) (d : Nat) :
    ∀ p ∈ leaves t d, strContains p.2 "mcpServers" = true := by
  match t with
  | .str s =>
    intro p hp
    simp only [leaves] at hp
    split at hp
    next hm =>
      simp at hp
      subst hp
      exact hm
    next => simp at hp
  | .node fs =>
    intro p hp
    simp only [leaves] at hp
    exact leavesFields_marker fs d p hp

theorem leavesFields_marker (fs : RFields) (d : Nat) :
    ∀ p ∈ leavesFields fs d, strContains p.2 "mcpServers" = true := by
  match fs with
  | .nil => simp [leavesFields]
  | .cons k v rest =>
    intro p hp
    simp only [leavesFields, List.mem_append] at hp
    rcases hp with h | h
    · exact leaves_marker v (d + 1) p h
    · exact leavesFields_marker rest d p h

end

mutual

theorem findConfig_none_of_deep (t : RTree) (d : Nat)
    (h : ∀ p ∈ leaves t d, 10 < p.1) : findConfig t d = none := by
  match t with
  | .str s =>
    rw [findConfig]
    split
    · rfl
    next hd =>
      split
      next hm =>
        have := h (d, s) (by simp [leaves, hm])
        omega
      next => rfl
  | .node fs =>
    rw [findConfig]
    split
    · rfl
    · exact findConfigFields_none_of_deep fs d (by simpa [leaves] using h)

theorem findConfigFields_none_of_deep (fs : RFields) (d : Nat)
    (h : ∀ p ∈ leavesFields fs d, 10 < p.1) : findConfigFields fs d = none := by
  match fs with
  | .nil => rfl
  | .cons k v rest =>
    rw [findConfigFields]
    have hv : findConfig v (d + 1) = none :=
      findConfig_none_of_deep v (d + 1)
        (fun p hp => h p (by simp [leavesFields, List.mem_append, hp]))
    rw [hv]
    exact findConfigFields_none_of_deep rest d
      (fun p hp => h p (by simp [leavesFields, List.mem_append, hp]))

end

theorem marker_string_ne_empty (s : String) (h : strContains s "mcpServers" = true) :
    (s == "") = false := by
  cases hs : (s == "")
  · rfl
  · exfalso
    have : s = "" := by
      simpa using hs
    subst this
    simp [strContains, containsList] at h

mutual

theorem findConfig_some_of_single (t : RTree) (d e : Nat) (s : String)
    (h : leaves t d = [(e, s)]) (he : e ≤ 10) : findConfig t d = some s := by
  match t with
  | .str s' =>
    have hd : d = e ∧ s' = s := by
      simp only [leaves] at h
      split at h
      · simp at h
        exact ⟨h.1, h.2⟩
      · simp at h
    obtain ⟨hd1, hd2⟩ := hd
    have hm : strContains s' "mcpServers" = true := by
      have := leaves_marker (.str s') d (e, s) (by rw [h]; simp)
      simpa [hd2] using this
    subst hd2
    rw [findConfig, if_neg (by omega)]
    simp [hm]
  | .node fs =>
    rw [findConfig]
    have hdle : d ≤ e := by
      have := leaves_depth_ge (.node fs) d (e, s) (by rw [h]; simp)
      simpa using this
    rw [if_neg (by omega)]
    refine findConfigFields_some_of_single fs d e s ?_ he
    simpa [leaves] using h

theorem findConfigFields_some_of_single (fs : RFields) (d e : Nat) (s : String)
    (h : leavesFields fs d = [(e, s)]) (he : e ≤ 10) : findConfigFields fs d = some s := by
  match fs with
  | .nil => simp [leavesFields] at h
  | .cons k v rest =>
    rw [findConfigFields]
    rw [leavesFields] at h
    cases hv : leaves v (d + 1) with
    | nil =>
      rw [hv] at h
      simp only [List.nil_append] at h
      have : findConfig v (d + 1) = none :=
        findConfig_none_of_deep v (d + 1) (by rw [hv]; simp)
      rw [this]
      exact findConfigFields_some_of_single rest d e s h he
    | cons a l' =>
      rw [hv] at h
      simp only [List.cons_append, List.cons.injEq] at h
      obtain ⟨ha1, ha2⟩ := h
      obtain ⟨hl', hrest⟩ := List.append_eq_nil.mp ha2
      have hfv : findConfig v (d + 1) = some s := by
        refine findConfig_some_of_single v (d + 1) e s ?_ he
        rw [hv, hl', ha1]
      have hne : (s == "") = false :=
        marker_string_ne_empty s
          (by
            have := leaves_marker v (d + 1) (e, s) (by rw [hv, ha1, hl']; simp)
            simpa using this)
      rw [hfv]
      simp [hne]

end

/-- C2: the fallback depth-first search never uses a match beyond depth
10: when every marker-bearing leaf sits deeper than 10 the search returns
null, and when the tree's only marker-bearing leaf sits at depth 10 or
shallower that string is returned. -/
theorem findConfig_depth_cap (t : RTree) :
    ((∀ p ∈ leaves t 0, 10 < p.1) → findConfig t 0 = none) ∧
    (∀ e s, leaves t 0 = [(e, s)] → e ≤ 10 → findConfig t 0 = some s) :=
  ⟨fun h => findConfig_none_of_deep t 0 h,
   fun e s h he => findConfig_some_of_single t 0 e s h he⟩

/-- Witness for C2: a marker string at depth 11 of a chain is not found; at
depth 10 it is returned. -/
theorem findConfig_depth_cap_witness :
    findConfig (chainTree 11 "\x7bmcpServers\x7d") 0 = none ∧
    findConfig (chainTree 10 "\x7bmcpServers\x7d") 0 = some "\x7bmcpServers\x7d" :=
  ⟨(findConfig_depth_cap (chainTree 11 "\x7bmcpServers\x7d")).1 (by decide),
   (findConfig_depth_cap (chainTree 10 "\x7bmcpServers\x7d")).2 10 "\x7bmcpServers\x7d"
     (by decide) (by decide)⟩

/-! ### C4: extraction of the fixed join-reply payload -/

/-- C4: on the fixed join-reply payload the extraction returns exactly
`\x7b"mcpServers":\x7b\x7d\x7d` via the first fixed coordinate pair. -/
theorem extract_fixed_payload :
    extractConfigFromRender c4response = some "\x7b\"mcpServers\":\x7b\x7d\x7d" := by
  rfl

/-! ### C10: empty environment values behave as unset -/

theorem asString_toList (s : String) : s.toList.asString = s := rfl

theorem jsOrOpt_empty_eq_none (d : String) : jsOrOpt (some "") d = jsOrOpt none d := by
  simp [jsOrOpt]

theorem expandWarnWithDefault_empty (v d : String) :
    expandWarnWithDefault (some "") v d = expandWarnWithDefault none v d := by
  simp [expandWarnWithDefault, jsFalsyOpt]

theorem expandWarnPlain_empty (v : String) :
    expandWarnPlain (some "") v = expandWarnPlain none v := by
  simp [expandWarnPlain, jsFalsyOpt]

/-- Erasing an empty-valued environment variable does not change the
replacer callback. -/
theorem expandReplacer_erase (e : String → Option String) (n : String) (he : e n = some "")
    (expr : List Char) :
    expandReplacer e expr = expandReplacer (fun m => if m = n then none else e m) expr := by
  unfold expandReplacer
  by_cases hcd : hasCD expr
  · simp only [hcd, if_true]
    by_cases hv : ((splitCD expr).headD []).asString = n
    · rw [hv]
      rw [he]
      rw [if_pos rfl]
      rw [jsOrOpt_empty_eq_none, expandWarnWithDefault_empty]
    · rw [if_neg hv]
  · simp only [hcd, if_false, Bool.false_eq_true]
    by_cases hv : expr.asString = n
    · rw [hv, he, if_pos rfl, jsOrOpt_empty_eq_none, expandWarnPlain_empty]
    · rw [if_neg hv]

theorem scanA_nil (em : List Char → String × List String) : scanA em [] = ([], []) := by
  rw [scanA]

/-- Collecting a brace-free content followed by the closing brace. -/
theorem scanBrace_collect (em : List Char → String × List String) :
    ∀ (content acc rest : List Char), '\x7d' ∉ content →
      scanBrace em acc (content ++ '\x7d' :: rest) =
        (if (acc ++ content).isEmpty then
          ('$' :: '\x7b' :: '\x7d' :: (scanA em rest).1, (scanA em rest).2)
        else
          ((em (acc ++ content)).1.toList ++ (scanA em rest).1,
           (em (acc ++ content)).2 ++ (scanA em rest).2)) := by
  intro content
  induction content with
  | nil =>
    intro acc rest _
    rw [List.nil_append, scanBrace, if_pos rfl]
    simp
  | cons c content' ih =>
    intro acc rest hc
    have hcne : c ≠ '\x7d' := by
      intro hh
      exact hc (by simp [hh])
    rw [List.cons_append, scanBrace, if_neg hcne]
    rw [ih (acc ++ [c]) rest (fun hh => hc (by simp [hh]))]
    have happ : acc ++ [c] ++ content' = acc ++ c :: content' := by simp
    rw [happ]

theorem hasCD_append_sep (a b : List Char) : hasCD (a ++ ':' :: '-' :: b) = true := by
  induction a with
  | nil => simp [hasCD]
  | cons c a' ih =>
    cases a' with
    | nil => simp_all [hasCD]
    | cons y r => simp_all [hasCD, List.cons_append]

theorem splitCD_no_sep (l : List Char) (h : hasCD l = false) : splitCD l = [l] := by
  induction l with
  | nil => rfl
  | cons c l' ih =>
    cases l' with
    | nil => rfl
    | cons y r =>
      simp only [hasCD, Bool.or_eq_false_iff] at h
      rw [splitCD, if_neg (by simp [h.1]), ih h.2]

theorem splitCD_append_sep (a b : List Char) (h : hasCD a = false) :
    splitCD (a ++ ':' :: '-' :: b) = a :: splitCD b := by
  induction a with
  | nil =>
    rw [List.nil_append, splitCD, if_pos (by simp)]
  | cons c a' ih =>
    cases a' with
    | nil =>
      simp only [List.cons_append, List.nil_append]
      rw [splitCD.eq_def]
      simp only [if_neg (show ¬((c == ':' && (':' == '-' : Bool)) = true) by simp)]
      rw [splitCD, if_pos (by simp)]
    | cons y r =>
      simp only [hasCD, Bool.or_eq_false_iff] at h
      rw [show (c :: y :: r) ++ ':' :: '-' :: b = c :: y :: (r ++ ':' :: '-' :: b) from by simp]
      rw [splitCD, if_neg (by simp [h.1])]
      have hih := ih h.2
      rw [show (y :: r) ++ ':' :: '-' :: b = y :: (r ++ ':' :: '-' :: b) from by simp] at hih
      rw [hih]

theorem asString_data (s : String) : s.data.asString = s := rfl

theorem toList_eq_nil_iff (s : String) : s.toList = [] ↔ s = "" := by
  constructor
  · intro h
    have h2 := congrArg List.asString h
    rw [asString_toList] at h2
    exact h2.trans rfl
  · intro h
    rw [h]
    rfl

theorem toList_isEmpty_false (s : String) (h : s ≠ "") : s.toList.isEmpty = false := by
  cases hl : s.toList with
  | nil => exact absurd ((toList_eq_nil_iff s).mp hl) h
  | cons a l => rfl

/-- The generic evaluation of `expandEnvVar` on a single `${n}` placeholder. -/
theorem expandEnvVar_ph (e : String → Option String) (n : String)
    (hn1 : n ≠ "") (hn2 : '\x7d' ∉ n.toList) (hn3 : hasCD n.toList = false) :
    expandEnvVar e ("$\x7b" ++ n ++ "\x7d") =
      (jsOrOpt (e n) "", expandWarnPlain (e n) n) := by
  have hlist : ("$\x7b" ++ n ++ "\x7d").toList = '$' :: '\x7b' :: (n.toList ++ ['\x7d']) := by
    show ("$\x7b" ++ n ++ "\x7d").data = _
    simp only [String.data_append]
    show ['$', '\x7b'] ++ n.data ++ ['\x7d'] = _
    simp [String.toList]
  unfold expandEnvVar
  rw [hlist, scanA, if_pos rfl, scanDollar, if_pos rfl,
    scanBrace_collect _ n.toList [] [] hn2]
  rw [if_neg (by rw [List.nil_append, toList_isEmpty_false n hn1]; simp)]
  rw [List.nil_append]
  have hrep : expandReplacer e n.toList = (jsOrOpt (e n) "", expandWarnPlain (e n) n) := by
    unfold expandReplacer
    rw [if_neg (by rw [hn3]; simp), asString_toList]
  rw [hrep, scanA_nil]
  simp [asString_toList, asString_data]

/-- The generic evaluation of `expandEnvVar` on a single `${n:-d}` placeholder. -/
theorem expandEnvVar_phd (e : String → Option String) (n d : String)
    (hn2 : '\x7d' ∉ n.toList) (hn3 : hasCD n.toList = false)
    (hd2 : '\x7d' ∉ d.toList) (hd3 : hasCD d.toList = false) :
    expandEnvVar e ("$\x7b" ++ n ++ ":-" ++ d ++ "\x7d") =
      (jsOrOpt (e n) d, expandWarnWithDefault (e n) n d) := by
  have hlist : ("$\x7b" ++ n ++ ":-" ++ d ++ "\x7d").toList
      = '$' :: '\x7b' :: ((n.toList ++ ':' :: '-' :: d.toList) ++ ['\x7d']) := by
    show ("$\x7b" ++ n ++ ":-" ++ d ++ "\x7d").data = _
    simp only [String.data_append]
    show ['$', '\x7b'] ++ n.data ++ [':', '-'] ++ d.data ++ ['\x7d'] = _
    simp [String.toList]
  have hcfree : '\x7d' ∉ n.toList ++ ':' :: '-' :: d.toList := by
    intro hmem
    rcases List.mem_append.mp hmem with h | h
    · exact hn2 h
    · simp only [List.mem_cons] at h
      rcases h with h | h | h
      · exact absurd h (by decide)
      · exact absurd h (by decide)
      · exact hd2 h
  unfold expandEnvVar
  rw [hlist, scanA, if_pos rfl, scanDollar, if_pos rfl,
    scanBrace_collect _ _ [] [] hcfree]
  rw [if_neg (by rw [List.nil_append]; cases hn : n.toList <;> simp)]
  rw [List.nil_append]
  have hrep : expandReplacer e (n.toList ++ ':' :: '-' :: d.toList)
      = (jsOrOpt (e n) d, expandWarnWithDefault (e n) n d) := by
    unfold expandReplacer
    rw [if_pos (by rw [hasCD_append_sep])]
    rw [splitCD_append_sep _ _ hn3, splitCD_no_sep _ hd3]
    simp [asString_toList, asString_data]
  rw [hrep, scanA_nil]
  simp [asString_toList, asString_data]

/-- C10: a placeholder variable set to the empty string behaves exactly as
an unset one: expansion (results and diagnostics alike) is unchanged when
the variable is erased from the environment, `${n}` expands to the empty
string with the undefined-variable diagnostic, and `${n:-d}` expands to the
default `d` with no diagnostic. -/
theorem expandEnvVar_empty_as_unset (e : String → Option String) (n d : String)
    (he : e n = some "")
    (hn1 : n ≠ "") (hn2 : '\x7d' ∉ n.toList) (hn3 : hasCD n.toList = false)
    (hd1 : d ≠ "") (hd2 : '\x7d' ∉ d.toList) (hd3 : hasCD d.toList = false) :
    (∀ v, expandEnvVar e v = expandEnvVar (fun m => if m = n then none else e m) v) ∧
    expandEnvVar e ("$\x7b" ++ n ++ "\x7d") =
      ("", ["Warning: Environment variable \x27" ++ n ++ "\x27 is undefined"]) ∧
    expandEnvVar e ("$\x7b" ++ n ++ ":-" ++ d ++ "\x7d") = (d, []) := by
  refine ⟨?_, ?_, ?_⟩
  · intro v
    have hfun : expandReplacer e = expandReplacer (fun m => if m = n then none else e m) :=
      funext (expandReplacer_erase e n he)
    unfold expandEnvVar
    rw [hfun]
  · rw [expandEnvVar_ph e n hn1 hn2 hn3, he]
    simp [jsOrOpt, expandWarnPlain, jsFalsyOpt]
  · rw [expandEnvVar_phd e n d hn2 hn3 hd2 hd3, he]
    have hdne : (d == "") = false := beq_eq_false_iff_ne.mpr hd1
    simp [jsOrOpt, expandWarnWithDefault, jsFalsyOpt, hdne]

/-- Witness for C10 at `n = HOME`, `d = x`, with `HOME` set to the empty
string. -/
theorem expandEnvVar_empty_as_unset_witness :
    expandEnvVar envC10 ("$\x7b" ++ "HOME" ++ "\x7d") =
      ("", ["Warning: Environment variable \x27" ++ "HOME" ++ "\x27 is undefined"]) ∧
    expandEnvVar envC10 ("$\x7b" ++ "HOME" ++ ":-" ++ "x" ++ "\x7d") = ("x", []) :=
  ⟨(expandEnvVar_empty_as_unset envC10 "HOME" "x" (by decide) (by decide) (by decide)
      (by decide) (by decide) (by decide) (by decide)).2.1,
   (expandEnvVar_empty_as_unset envC10 "HOME" "x" (by decide) (by decide) (by decide)
      (by decide) (by decide) (by decide) (by decide)).2.2⟩

/-! ### C5: write exit codes -/

/-- C5: the write command's exit code reflects the conversion outcome:
all entries accepted and the save reply ok gives 0; some rejected, at
least one accepted and save ok gives 1; none accepted gives 2 with no
join (or submit-event) performed; any fatal connect, join or save failure
gives 3. -/
theorem write_exit_codes (envMap : String → Option String) (config : Option MCPConfig)
    (join save : ReplyOutcome) (connectOk : Bool) :
    (connectOk = true → (formatConfig envMap config).invalid = [] →
      (formatConfig envMap config).valid ≠ [] →
      join = ReplyOutcome.okReply → save = ReplyOutcome.okReply →
      writeCommandRun envMap connectOk config join save = ⟨0, true⟩) ∧
    (connectOk = true → (formatConfig envMap config).invalid ≠ [] →
      (formatConfig envMap config).valid ≠ [] →
      join = ReplyOutcome.okReply → save = ReplyOutcome.okReply →
      writeCommandRun envMap connectOk config join save = ⟨1, true⟩) ∧
    (connectOk = true → (formatConfig envMap config).valid = [] →
      writeCommandRun envMap connectOk config join save = ⟨2, false⟩) ∧
    ((connectOk = false ∨ ((formatConfig envMap config).valid ≠ [] ∧
        (join ≠ ReplyOutcome.okReply ∨ save ≠ ReplyOutcome.okReply))) →
      (writeCommandRun envMap connectOk config join save).exitCode = 3) := by
  refine ⟨?_, ?_, ?_, ?_⟩
  · intro hc hi hv hj hs
    subst hc
    subst hj
    subst hs
    unfold writeCommandRun
    rw [if_neg (by simp)]
    rw [if_neg (by simp [List.length_eq_zero, hv])]
    simp [hi]
  · intro hc hi hv hj hs
    subst hc
    subst hj
    subst hs
    unfold writeCommandRun
    rw [if_neg (by simp)]
    rw [if_neg (by simp [List.length_eq_zero, hv])]
    have : 0 < (formatConfig envMap config).invalid.length := by
      cases hl : (formatConfig envMap config).invalid with
      | nil => exact absurd hl hi
      | cons a l => simp
    simp [this]
  · intro hc hv
    subst hc
    unfold writeCommandRun
    rw [if_neg (by simp)]
    rw [if_pos (by simp [hv])]
  · intro hfatal
    rcases hfatal with hc | ⟨hv, hjs⟩
    · subst hc
      unfold writeCommandRun
      rw [if_pos (by simp)]
    · unfold writeCommandRun
      cases connectOk with
      | false => rw [if_pos (by simp)]
      | true =>
        rw [if_neg (by simp)]
        rw [if_neg (by simp [List.length_eq_zero, hv])]
        rcases hjs with hj | hs
        · cases join with
          | okReply => exact absurd rfl hj
          | errReply => rfl
          | timeoutReply => rfl
        · cases join with
          | okReply =>
            cases save with
            | okReply => exact absurd rfl hs
            | errReply => rfl
            | timeoutReply => rfl
          | errReply => rfl
          | timeoutReply => rfl

/-- Witness for C5: the four exit codes on concrete configurations. -/
theorem write_exit_codes_witness :
    writeCommandRun emptyEnvMap true cfgAllValid ReplyOutcome.okReply ReplyOutcome.okReply
      = ⟨0, true⟩ ∧
    writeCommandRun emptyEnvMap true cfgSomeValid ReplyOutcome.okReply ReplyOutcome.okReply
      = ⟨1, true⟩ ∧
    writeCommandRun emptyEnvMap true cfgNoneValid ReplyOutcome.okReply ReplyOutcome.okReply
      = ⟨2, false⟩ ∧
    (writeCommandRun emptyEnvMap false cfgAllValid ReplyOutcome.okReply
      ReplyOutcome.okReply).exitCode = 3 :=
  ⟨(write_exit_codes emptyEnvMap cfgAllValid ReplyOutcome.okReply ReplyOutcome.okReply
      true).1 rfl (by decide) (by decide) rfl rfl,
   (write_exit_codes emptyEnvMap cfgSomeValid ReplyOutcome.okReply ReplyOutcome.okReply
      true).2.1 rfl (by decide) (by decide) rfl rfl,
   (write_exit_codes emptyEnvMap cfgNoneValid ReplyOutcome.okReply ReplyOutcome.okReply
      true).2.2.1 rfl (by decide),
   (write_exit_codes emptyEnvMap cfgAllValid ReplyOutcome.okReply ReplyOutcome.okReply
      false).2.2.2 (Or.inl rfl)⟩

/-! ### C6: missing CSRF token fails connect before any transport attempt -/

/-- C6: with no cached CSRF token and a 302 token fetch whose body yields
none of the four tokens, `connect` fails with the auth error and never
reaches the websocket attempt. -/
theorem connect_auth_failure (st : ClientState) (r : HttpResponse)
    (h0 : st.csrfToken = none)
    (h302 : r.statusCode = 302)
    (h1 : extractCsrf r.body = none) (h2 : extractSession r.body = none)
    (h3 : extractStatic r.body = none) (h4 : extractPhxId r.body = none) :
    connect st (FetchOutcome.got r) = ConnectResult.authError ∧
    (∀ st', connect st (FetchOutcome.got r) ≠ ConnectResult.wsAttempt st') := by
  have happly : fetchApply st r.body = st := by
    unfold fetchApply
    rw [h1, h2, h3, h4]
  have hfetch : fetchPageTokens st (FetchOutcome.got r) = Except.ok (st, fetchDiags r) := by
    show Except.ok (fetchApply st r.body, fetchDiags r) = Except.ok (st, fetchDiags r)
    rw [happly]
  have hmain : connect st (FetchOutcome.got r) = ConnectResult.authError := by
    unfold connect
    rw [if_neg (by simp [h0])]
    rw [hfetch]
    simp [h0]
  exact ⟨hmain, fun st' h => by rw [hmain] at h; exact ConnectResult.noConfusion h⟩

/-- Witness for C6 at a fresh client and an empty 302 body. -/
theorem connect_auth_failure_witness :
    connect stFresh (FetchOutcome.got ⟨302, []⟩) = ConnectResult.authError :=
  (connect_auth_failure stFresh ⟨302, []⟩ rfl rfl (by decide) (by decide) (by decide)
    (by decide)).1

/-! ### C7: 3xx handling of the token fetch -/

/-- Counterexample for C7: the claim that every 3xx response surfaces a
diagnostic is false — a 303 response produces no diagnostic (the source
only checks 301 and 302). -/
theorem fetch_3xx_counterexample :
    ¬ (∀ (st : ClientState) (r : HttpResponse),
        300 ≤ r.statusCode → r.statusCode < 400 →
        ∀ st' diags, fetchPageTokens st (FetchOutcome.got r) = .ok (st', diags) →
          diags ≠ []) := by
  intro h
  exact h stFresh ⟨303, []⟩ (by decide) (by decide) stFresh [] rfl rfl

/-- C7 (amended): a 301 or 302 response whose body yields no token match
completes successfully with the state unchanged (all tokens still absent)
and surfaces the redirect diagnostic; any received response completes
successfully (the network error arises only from a transport failure,
which maps to the error case). -/
theorem fetch_redirect_spec (st : ClientState) (r : HttpResponse)
    (h1 : extractCsrf r.body = none) (h2 : extractSession r.body = none)
    (h3 : extractStatic r.body = none) (h4 : extractPhxId r.body = none)
    (hs : r.statusCode = 302 ∨ r.statusCode = 301) :
    fetchPageTokens st (FetchOutcome.got r) =
      .ok (st, ["Redirect detected - authentication may have expired"]) ∧
    (∀ r' : HttpResponse, ∃ st' diags,
      fetchPageTokens st (FetchOutcome.got r') = .ok (st', diags)) ∧
    fetchPageTokens st FetchOutcome.transportError = .error () := by
  refine ⟨?_, ?_, rfl⟩
  · have happly : fetchApply st r.body = st := by
      unfold fetchApply
      rw [h1, h2, h3, h4]
    have hd : fetchDiags r = ["Redirect detected - authentication may have expired"] := by
      unfold fetchDiags
      rcases hs with hs | hs <;> rw [hs] <;> rfl
    show Except.ok (fetchApply st r.body, fetchDiags r) = _
    rw [happly, hd]
  · intro r'
    exact ⟨fetchApply st r'.body, fetchDiags r', rfl⟩

/-- Witness for C7's amended theorem at a fresh client and an empty 302
response. -/
theorem fetch_redirect_spec_witness :
    fetchPageTokens stFresh (FetchOutcome.got ⟨302, []⟩) =
      .ok (stFresh, ["Redirect detected - authentication may have expired"]) :=
  (fetch_redirect_spec stFresh ⟨302, []⟩ (by decide) (by decide) (by decide) (by decide)
    (Or.inl rfl)).1

/-! ### C8: strictly increasing message references -/

theorem opFrames_refs (op : SendOp) (st : ClientState) :
    st.msgRef ≤ (opFrames op st).2.msgRef ∧
    ((opFrames op st).1.filterMap OutFrame.msgRef).Pairwise (· < ·) ∧
    (∀ m ∈ (opFrames op st).1.filterMap OutFrame.msgRef,
      st.msgRef ≤ m ∧ m < (opFrames op st).2.msgRef) := by
  cases op with
  | heartbeat =>
    refine ⟨by simp [opFrames, heartbeatSend], ?_, ?_⟩
    · simp [opFrames, heartbeatSend, List.filterMap]
    · intro m hm
      simp [opFrames, heartbeatSend, List.filterMap] at hm
      subst hm
      simp [opFrames, heartbeatSend]
  | join =>
    cases hp : st.phxId with
    | none =>
      refine ⟨by simp [opFrames, joinSend, hp], ?_, ?_⟩
      · simp [opFrames, joinSend, hp, List.filterMap]
      · intro m hm
        simp [opFrames, joinSend, hp, List.filterMap] at hm
    | some pid =>
      refine ⟨by simp [opFrames, joinSend, hp]; omega, ?_, ?_⟩
      · simp [opFrames, joinSend, hp, List.filterMap]
      · intro m hm
        simp [opFrames, joinSend, hp, List.filterMap] at hm
        subst hm
        simp [opFrames, joinSend, hp]
  | submitEvent =>
    refine ⟨by simp [opFrames, saveSend], ?_, ?_⟩
    · simp [opFrames, saveSend, List.filterMap]
    · intro m hm
      simp [opFrames, saveSend, List.filterMap] at hm
      subst hm
      simp [opFrames, saveSend]

theorem opFrames_msgRef_isSome (op : SendOp) (st : ClientState) :
    ∀ f ∈ (opFrames op st).1, f.msgRef.isSome := by
  cases op with
  | heartbeat =>
    intro f hf
    simp [opFrames, heartbeatSend] at hf
    subst hf
    rfl
  | join =>
    cases hp : st.phxId with
    | none =>
      intro f hf
      simp [opFrames, joinSend, hp] at hf
    | some pid =>
      intro f hf
      simp [opFrames, joinSend, hp] at hf
      subst hf
      rfl
  | submitEvent =>
    intro f hf
    simp [opFrames, saveSend] at hf
    subst hf
    rfl

theorem runOps_cons (op : SendOp) (ops : List SendOp) (st : ClientState) :
    runOps (op :: ops) st
      = ((opFrames op st).1 ++ (runOps ops (opFrames op st).2).1,
         (runOps ops (opFrames op st).2).2) := rfl

theorem runOps_refs (ops : List SendOp) : ∀ st : ClientState,
    st.msgRef ≤ (runOps ops st).2.msgRef ∧
    ((runOps ops st).1.filterMap OutFrame.msgRef).Pairwise (· < ·) ∧
    (∀ m ∈ (runOps ops st).1.filterMap OutFrame.msgRef,
      st.msgRef ≤ m ∧ m < (runOps ops st).2.msgRef) := by
  induction ops with
  | nil =>
    intro st
    exact ⟨Nat.le_refl _, by simp [runOps], by simp [runOps]⟩
  | cons op ops ih =>
    intro st
    obtain ⟨h1, h2, h3⟩ := opFrames_refs op st
    obtain ⟨g1, g2, g3⟩ := ih (opFrames op st).2
    refine ⟨?_, ?_, ?_⟩
    · rw [runOps_cons]
      exact Nat.le_trans h1 g1
    · rw [runOps_cons]
      simp only [List.filterMap_append]
      rw [List.pairwise_append]
      refine ⟨h2, g2, ?_⟩
      intro a ha b hb
      have ha2 := (h3 a ha).2
      have hb1 := (g3 b hb).1
      omega
    · rw [runOps_cons]
      intro m hm
      simp only [List.filterMap_append, List.mem_append] at hm
      rcases hm with hm | hm
      · have := h3 m hm
        exact ⟨this.1, Nat.lt_of_lt_of_le this.2 g1⟩
      · have := g3 m hm
        exact ⟨Nat.le_trans h1 this.1, this.2⟩

theorem runOps_msgRef_isSome (ops : List SendOp) : ∀ st : ClientState,
    ∀ f ∈ (runOps ops st).1, f.msgRef.isSome := by
  induction ops with
  | nil =>
    intro st f hf
    simp [runOps] at hf
  | cons op ops ih =>
    intro st f hf
    rw [runOps_cons] at hf
    rcases List.mem_append.mp hf with h | h
    · exact opFrames_msgRef_isSome op st f h
    · exact ih (opFrames op st).2 f h

/-- C8: across any sequence of send operations, every outbound frame
carries a message reference, and the sequence of those references is
strictly increasing with no duplicates. -/
theorem msgRefs_strictly_increasing (ops : List SendOp) (st : ClientState) :
    ((runOps ops st).1.filterMap OutFrame.msgRef).Pairwise (· < ·) ∧
    ((runOps ops st).1.filterMap OutFrame.msgRef).Nodup ∧
    (∀ f ∈ (runOps ops st).1, f.msgRef.isSome) := by
  have h := (runOps_refs ops st).2.1
  exact ⟨h, h.imp (fun hab => Nat.ne_of_lt hab), runOps_msgRef_isSome ops st⟩

/-! ### C1: reply correlation ignores the message reference -/

/-- Counterexample for C1: a reply whose `messageRef` matches no pending
request still resolves the pending join, because the handler matches on
topic and reply event only. -/
theorem reply_correlation_counterexample :
    ¬ (∀ (pendingRef : Nat) (topic : String) (msg : InboundMsg),
        joinHandlerAction topic msg ≠ HandlerAction.ignore →
        msg.msgRef = some (toString pendingRef)) := by
  intro h
  have := h 1 "lv:phx-A"
    { joinRef := none, msgRef := some "999", topic := "lv:phx-A",
      event := "phx_reply", status := some "ok" } (by decide)
  exact absurd this (by decide)

/-- C1 (amended): an inbound frame resolves the pending join call iff its
topic matches and its event is the reply event with an `ok` or `error`
status; the save call settles iff topic and reply event match; in both
handlers the frame's message reference is never consulted. -/
theorem reply_correlation_topic_event (topic : String) (msg : InboundMsg) :
    (joinHandlerAction topic msg ≠ HandlerAction.ignore ↔
      (msg.topic = topic ∧ msg.event = "phx_reply" ∧
        (msg.status = some "ok" ∨ msg.status = some "error"))) ∧
    (saveHandlerAction topic msg ≠ HandlerAction.ignore ↔
      (msg.topic = topic ∧ msg.event = "phx_reply")) ∧
    (∀ mr : Option String,
      joinHandlerAction topic { msg with msgRef := mr } = joinHandlerAction topic msg ∧
      saveHandlerAction topic { msg with msgRef := mr } = saveHandlerAction topic msg) := by
  refine ⟨?_, ?_, fun mr => ⟨rfl, rfl⟩⟩
  · unfold joinHandlerAction
    by_cases h1 : msg.topic = topic <;> by_cases h2 : msg.event = "phx_reply" <;>
      by_cases h3 : msg.status = some "ok" <;> by_cases h4 : msg.status = some "error" <;>
        simp [h1, h2, h3, h4]
  · unfold saveHandlerAction
    by_cases h1 : msg.topic = topic <;> by_cases h2 : msg.event = "phx_reply" <;>
      by_cases h3 : msg.status = some "ok" <;>
        simp [h1, h2, h3]

/-! ### C9: the join reference is assigned at the attempt, not by the reply -/

/-- Counterexample for C9: the join reference is already populated right
after the join frame is constructed and sent — before any reply (with any
status) has been processed. -/
theorem joinRef_populated_by_send_counterexample :
    ¬ (∀ (st : ClientState) (f : OutFrame) (st' : ClientState),
        st.joinRef = none → joinSend st = JoinSendResult.sent f st' →
        st'.joinRef = none) := by
  intro h
  have := h stJoinReady
    ⟨some 0, some 1, "lv:phx-A", "phx_join", FramePayload.joinPayload⟩
    { stJoinReady with joinRef := some 0, msgRef := 2 } rfl rfl
  simp at this

/-- C9 (amended): the join reference is assigned when the join is
attempted: a send assigns it a fresh message reference as the join frame
is constructed (before any reply exists), and without an element id no
join frame is sent and the state is untouched — so a join reference exists
iff a join has been attempted. -/
theorem joinRef_assigned_at_attempt (st : ClientState) :
    (st.phxId = none → joinSend st = JoinSendResult.noPhxId) ∧
    (∀ pid, st.phxId = some pid →
      joinSend st = JoinSendResult.sent
        ⟨some st.msgRef, some (st.msgRef + 1), "lv:" ++ pid, "phx_join",
          FramePayload.joinPayload⟩
        { st with joinRef := some st.msgRef, msgRef := st.msgRef + 2 }) := by
  constructor
  · intro hp
    unfold joinSend
    rw [hp]
  · intro pid hp
    unfold joinSend
    rw [hp]

/-- Witness for C9's amended theorem on a ready-to-join state. -/
theorem joinRef_assigned_at_attempt_witness :
    joinSend stJoinReady = JoinSendResult.sent
      ⟨some 0, some 1, "lv:" ++ "phx-A", "phx_join", FramePayload.joinPayload⟩
      { stJoinReady with joinRef := some 0, msgRef := 2 } :=
  (joinRef_assigned_at_attempt stJoinReady).2 "phx-A" rfl

end MCPNest
